import Mathlib

/-!
Shallow embedding of the leanSpec consensus core
(`src/lean_spec/subspecs/containers/state/state.py` and
`src/lean_spec/subspecs/forkchoice/store.py`) together with theorems
checking the natural-language specification against it.

Modelling conventions:
* `Uint64` / `Slot` values are modelled as `Nat`.  None of the embedded
  operations can overflow 2^64 on the inputs the theorems quantify over in a
  way that changes control flow, except `Uint64.__sub__`, which raises on a
  negative result and is modelled explicitly where it occurs
  (`Store.advance_time`).
* `Bytes32` digests are modelled by `Root := List Nat`; `Bytes32.zero()` is
  the empty list.  SSZ `hash_tree_root` is an external collaborator of the
  repository, so every operation is parametrised by a `HashModel` providing
  the digest functions.  SSZ guarantees `hash_tree_root(block) =
  hash_tree_root(header)` whenever the header carries the block's fields and
  `body_root = hash_tree_root(body)`; the model builds `hashBlock` from
  `hashHeader` accordingly.
* Python exceptions are modelled with `Except String`.  For the mutating
  `Store` methods the error value also carries the store as it stands at the
  moment the exception is raised (`Except (String × Store) Store`), which is
  what a Python caller observes after catching the exception.
* Python `dict` is modelled by an insertion-ordered association list with
  in-place update (`AList`).
-/

namespace LeanSpecPf

/-- A 32-byte digest, modelled as a list of naturals; `[]` is the zero digest. -/
abbrev Root := List Nat

def zeroRoot : Root := []

/-- `Checkpoint` container: a (block root, slot) pair. -/
structure Checkpoint where
  root : Root
  slot : Nat
deriving DecidableEq, Repr

/-- `BlockHeader` container. -/
structure BlockHeader where
  slot : Nat
  proposer_index : Nat
  parent_root : Root
  state_root : Root
  body_root : Root
deriving DecidableEq, Repr

/-- `AttestationData`: slot plus head/target/source checkpoints.  The same
shape underlies the `Vote` message read by `State.process_attestations`
(`signed_vote.message.source` / `.target`). -/
structure AttestationData where
  slot : Nat
  head : Checkpoint
  target : Checkpoint
  source : Checkpoint
deriving DecidableEq, Repr

/-- `ValidatorAttestation`: a validator index with its attestation data. -/
structure ValidatorAttestation where
  validator_id : Nat
  data : AttestationData
deriving DecidableEq, Repr

/-- `SignedValidatorAttestation`; the signature bytes are opaque to the
consensus core and modelled as a `Nat`. -/
structure SignedValidatorAttestation where
  message : ValidatorAttestation
  signature : Nat
deriving DecidableEq, Repr

/-- `ProposerAttestationData`: the proposer's standalone source/target vote
carried in a block body. -/
structure ProposerAttestationData where
  target : Checkpoint
  source : Checkpoint
deriving DecidableEq, Repr

/-- `BlockBody`: the attestation list plus the proposer's own vote. -/
structure BlockBody where
  attestations : List ValidatorAttestation
  proposer_attestation : ProposerAttestationData
deriving DecidableEq, Repr

/-- `Block` container. -/
structure Block where
  slot : Nat
  proposer_index : Nat
  parent_root : Root
  state_root : Root
  body : BlockBody
deriving DecidableEq, Repr

/-- `SignedBlock`: a block plus its aggregated signature list (opaque). -/
structure SignedBlock where
  message : Block
  signature : List Nat
deriving DecidableEq, Repr

/-- Chain `Config` carried inside the state and the store. -/
structure Config where
  num_validators : Nat
  genesis_time : Nat
deriving DecidableEq, Repr

/-- The `State` container of `state/state.py`. -/
structure State where
  config : Config
  slot : Nat
  latest_block_header : BlockHeader
  latest_justified : Checkpoint
  latest_finalized : Checkpoint
  historical_block_hashes : List Root
  justified_slots : List Bool
  justifications_roots : List Root
  justifications_validators : List Bool
deriving DecidableEq, Repr

/-- The external SSZ `hash_tree_root` collaborator: digest functions for the
three container shapes the consensus core hashes. -/
structure HashModel where
  hashHeader : BlockHeader → Root
  hashBody : BlockBody → Root
  hashState : State → Root

/-- The header summarising a block (same fields, `body_root` the body digest). -/
def headerOfBlock (H : HashModel) (b : Block) : BlockHeader :=
  { slot := b.slot
    proposer_index := b.proposer_index
    parent_root := b.parent_root
    state_root := b.state_root
    body_root := H.hashBody b.body }

/-- `hash_tree_root` of a block: SSZ makes it coincide with the root of the
block's header, since both merkleize the same field roots. -/
def HashModel.hashBlock (H : HashModel) (b : Block) : Root :=
  H.hashHeader (headerOfBlock H b)

-- Chain configuration constants (`subspecs/chain/config.py`).

/-- `INTERVALS_PER_SLOT = 4`. -/
def INTERVALS_PER_SLOT : Nat := 4

/-- `SECONDS_PER_SLOT = 4`. -/
def SECONDS_PER_SLOT : Nat := 4

/-- `SECONDS_PER_INTERVAL = SECONDS_PER_SLOT // INTERVALS_PER_SLOT = 1`. -/
def SECONDS_PER_INTERVAL : Nat := SECONDS_PER_SLOT / INTERVALS_PER_SLOT

/-- `is_proposer` (`types/validator.py`): round-robin proposer selection. -/
def is_proposer (validator_index slot num_validators : Nat) : Bool :=
  slot % num_validators == validator_index

/-- An empty block body, as used for the genesis header. -/
def emptyBody : BlockBody :=
  { attestations := []
    proposer_attestation :=
      { target := { root := zeroRoot, slot := 0 }
        source := { root := zeroRoot, slot := 0 } } }

/-- `State.generate_genesis`. -/
def State.generate_genesis (H : HashModel) (genesis_time num_validators : Nat) :
    State :=
  { config := { num_validators := num_validators, genesis_time := genesis_time }
    slot := 0
    latest_block_header :=
      { slot := 0
        proposer_index := 0
        parent_root := zeroRoot
        state_root := zeroRoot
        body_root := H.hashBody emptyBody }
    latest_justified := { root := zeroRoot, slot := 0 }
    latest_finalized := { root := zeroRoot, slot := 0 }
    historical_block_hashes := []
    justified_slots := []
    justifications_roots := []
    justifications_validators := [] }

/-- `State.process_slot`: advance one slot, appending the current header's
root to the history, one justified bit (true only for the genesis header) and
padding bits for skipped slots. -/
def State.process_slot (H : HashModel) (s : State) : State :=
  let latest_block_root := H.hashHeader s.latest_block_header
  let new_historical := s.historical_block_hashes ++ [latest_block_root]
  let new_justified := s.justified_slots ++ [s.latest_block_header.slot == 0]
  let new_justified :=
    if s.slot > s.latest_block_header.slot then
      new_justified ++ List.replicate (s.slot - s.latest_block_header.slot - 1) false
    else new_justified
  { s with
      slot := s.slot + 1
      historical_block_hashes := new_historical
      justified_slots := new_justified }

theorem State.process_slot_slot (H : HashModel) (s : State) :
    (State.process_slot H s).slot = s.slot + 1 := rfl

/-- The `while state.slot < target_slot` loop of `State.process_slots`.
Each iteration raises the slot by exactly one, so the loop runs exactly
`target_slot - s.slot` times; that count is passed as structural fuel (the
guard is kept, so the function equals the while loop whenever the fuel is at
least the iteration count). -/
def State.process_slots_loop (H : HashModel) (target_slot : Nat) :
    Nat → State → State
  | 0, s => s
  | fuel + 1, s =>
    if s.slot < target_slot then
      State.process_slots_loop H target_slot fuel (State.process_slot H s)
    else s

/-- `State.process_slots`: raises unless the target is strictly ahead, then
applies `process_slot` until the state's slot reaches it. -/
def State.process_slots (H : HashModel) (s : State) (target_slot : Nat) :
    Except String State :=
  if target_slot ≤ s.slot then
    .error "Target slot must be greater than current slot"
  else
    .ok (State.process_slots_loop H target_slot (target_slot - s.slot) s)

/-- `State.process_block_header`: slot, proposer and parent-root checks, then
replace the latest header (state root copied verbatim from the block). -/
def State.process_block_header (H : HashModel) (s : State) (block : Block) :
    Except String State :=
  if block.slot ≠ s.slot then
    .error "Block slot mismatch"
  else if ¬ is_proposer block.proposer_index s.slot s.config.num_validators then
    .error "Incorrect block proposer"
  else if block.parent_root ≠ H.hashHeader s.latest_block_header then
    .error "Block parent root mismatch"
  else
    .ok { s with
            latest_block_header :=
              { slot := block.slot
                proposer_index := block.proposer_index
                parent_root := block.parent_root
                state_root := block.state_root
                body_root := H.hashBody block.body } }

/-- Accumulator threaded through the attestation loop of
`State.process_attestations`: the mutable `justified_slots` list together
with the running `latest_justified` / `latest_finalized` checkpoints. -/
structure JustAcc where
  justified_slots : List Bool
  latest_justified : Checkpoint
  latest_finalized : Checkpoint
deriving DecidableEq, Repr

/-- The `while len(justified_slots) <= target: append False` loop followed by
`justified_slots[target] = True`. -/
def markJustified (js : List Bool) (target : Nat) : List Bool :=
  let js2 := if js.length ≤ target then js ++ List.replicate (target + 1 - js.length) false else js
  js2.set target true

/-- One iteration of the attestation loop of `State.process_attestations`,
translated clause by clause from the Python body (the indexing reads are
guarded by the same bounds checks as the source, so `getD` never falls back
to its default inside a taken branch). -/
def attStep (acc : JustAcc) (a : ValidatorAttestation) : JustAcc :=
  let source := a.data.source
  let target := a.data.target
  -- skip votes whose source does not precede their target
  if source.slot ≥ target.slot then acc
  -- skip votes whose source lies outside the tracked justified-slots window
  else if source.slot < acc.justified_slots.length then
    let source_is_justified := acc.justified_slots.getD source.slot false
    if source_is_justified && (decide (target.slot < acc.justified_slots.length) &&
        acc.justified_slots.getD target.slot false) then
      -- target already justified: check for finalization
      if source.slot + 1 = target.slot ∧ acc.latest_justified.slot < target.slot then
        { acc with latest_finalized := source, latest_justified := target }
      else acc
    else
      if source_is_justified then
        let js := markJustified acc.justified_slots target.slot
        if target.slot > acc.latest_justified.slot then
          { justified_slots := js, latest_justified := target
            latest_finalized := acc.latest_finalized }
        else { acc with justified_slots := js }
      else acc
  else acc  -- source beyond the tracked window: skip

/-- `State.process_attestations`: fold the attestation loop over the votes in
list order and write the accumulator back into the state. -/
def State.process_attestations (s : State) (attestations : List ValidatorAttestation) :
    State :=
  let acc := attestations.foldl attStep
    { justified_slots := s.justified_slots
      latest_justified := s.latest_justified
      latest_finalized := s.latest_finalized }
  { s with
      justified_slots := acc.justified_slots
      latest_justified := acc.latest_justified
      latest_finalized := acc.latest_finalized }

/-- `State.process_block`: header processing followed by attestation
processing. -/
def State.process_block (H : HashModel) (s : State) (block : Block) :
    Except String State :=
  match State.process_block_header H s block with
  | .error e => .error e
  | .ok s2 => .ok (State.process_attestations s2 block.body.attestations)

/-- `State.state_transition`: signature flag check, slot advancement, block
processing, then the state-root check. -/
def State.state_transition (H : HashModel) (s : State) (signed_block : SignedBlock)
    (valid_signatures : Bool) : Except String State :=
  if ¬ valid_signatures then
    .error "Block signatures must be valid"
  else
    let block := signed_block.message
    match State.process_slots H s block.slot with
    | .error e => .error e
    | .ok state =>
      match State.process_block H state block with
      | .error e => .error e
      | .ok new_state =>
        if block.state_root ≠ H.hashState new_state then
          .error "Invalid block state root"
        else
          .ok new_state

/-! ## The fork-choice `Store` (`subspecs/forkchoice/store.py`) -/

/-- Insertion-ordered association list modelling a Python `dict`
(unique keys, updates in place, insertions append). -/
abbrev Dict (κ α : Type) := List (κ × α)

/-- `d[key]` / `d.get(key)`. -/
def dictLookup {κ α : Type} [DecidableEq κ] : Dict κ α → κ → Option α
  | [], _ => none
  | (k, v) :: rest, key => if key = k then some v else dictLookup rest key

/-- `d[key] = val`: replace in place when present, append otherwise. -/
def dictInsert {κ α : Type} [DecidableEq κ] : Dict κ α → κ → α → Dict κ α
  | [], key, val => [(key, val)]
  | (k, v) :: rest, key, val =>
    if key = k then (key, val) :: rest else (k, v) :: dictInsert rest key val

/-- `del d[key]` (keys are unique in a Python dict, so removing every entry
with the key is the same operation). -/
def dictErase {κ α : Type} [DecidableEq κ] (m : Dict κ α) (key : κ) : Dict κ α :=
  m.filter (fun kv => decide (kv.1 ≠ key))

theorem dictLookup_dictInsert_self {κ α : Type} [DecidableEq κ]
    (m : Dict κ α) (k : κ) (v : α) : dictLookup (dictInsert m k v) k = some v := by
  induction m with
  | nil => simp [dictInsert, dictLookup]
  | cons kv rest ih =>
    unfold dictInsert
    by_cases h : k = kv.1
    · simp [h, dictLookup]
    · simp [h, dictLookup, ih]

theorem dictLookup_dictInsert_ne {κ α : Type} [DecidableEq κ]
    (m : Dict κ α) (k k2 : κ) (v : α) (h : k2 ≠ k) :
    dictLookup (dictInsert m k v) k2 = dictLookup m k2 := by
  induction m with
  | nil => simp [dictInsert, dictLookup, h]
  | cons kv rest ih =>
    unfold dictInsert
    by_cases h2 : k = kv.1
    · subst h2
      simp [dictLookup, h]
    · simp only [if_neg h2]
      unfold dictLookup
      by_cases h3 : k2 = kv.1
      · simp [h3]
      · simp [h3, ih]

theorem dictLookup_dictErase_self {κ α : Type} [DecidableEq κ]
    (m : Dict κ α) (k : κ) : dictLookup (dictErase m k) k = none := by
  induction m with
  | nil => rfl
  | cons kv rest ih =>
    by_cases h : kv.1 = k
    · simpa [dictErase, List.filter_cons, h] using ih
    · have hne : ¬ (k = kv.1) := fun hc => h hc.symm
      simp only [dictErase, ne_eq, decide_not] at ih ⊢
      simp [List.filter_cons, h, hne, dictLookup, ih]

/-- The fork-choice `Store` container. -/
structure Store where
  time : Nat
  config : Config
  head : Root
  safe_target : Root
  latest_justified : Checkpoint
  latest_finalized : Checkpoint
  blocks : Dict Root Block
  states : Dict Root State
  latest_known_votes : Dict Nat SignedValidatorAttestation
  latest_new_votes : Dict Nat SignedValidatorAttestation
deriving DecidableEq, Repr

/-- `Store.get_forkchoice_store`: initialize from a trusted anchor pair. -/
def Store.get_forkchoice_store (H : HashModel) (state : State) (anchor_block : Block) :
    Except String Store :=
  if anchor_block.state_root ≠ H.hashState state then
    .error "Anchor block state root must match anchor state hash"
  else
    let anchor_root := H.hashBlock anchor_block
    .ok { time := anchor_block.slot * INTERVALS_PER_SLOT
          config := state.config
          head := anchor_root
          safe_target := anchor_root
          latest_justified := state.latest_justified
          latest_finalized := state.latest_finalized
          blocks := [(anchor_root, anchor_block)]
          states := [(anchor_root, state)]
          latest_known_votes := []
          latest_new_votes := [] }

/-- `Store.validate_attestation`: structural and temporal checks, in source
order; performs no mutation. -/
def Store.validate_attestation (st : Store) (signed_attestation : SignedValidatorAttestation) :
    Except String Unit :=
  let data := signed_attestation.message.data
  match dictLookup st.blocks data.source.root with
  | none => .error "Unknown source block"
  | some source_block =>
    match dictLookup st.blocks data.target.root with
    | none => .error "Unknown target block"
    | some target_block =>
      if ¬ source_block.slot ≤ target_block.slot then
        .error "Source slot must not exceed target"
      else if ¬ data.source.slot ≤ data.target.slot then
        .error "Source checkpoint slot must not exceed target"
      else if source_block.slot ≠ data.source.slot then
        .error "Source checkpoint slot mismatch"
      else if target_block.slot ≠ data.target.slot then
        .error "Target checkpoint slot mismatch"
      else
        -- `current_slot = Slot(self.time // SECONDS_PER_INTERVAL)`
        if ¬ data.slot ≤ st.time / SECONDS_PER_INTERVAL + 1 then
          .error "Attestation too far in future"
        else .ok ()

/-- `Store.process_attestation`: validate, then update the known-votes map
(on-chain votes) or the new-votes map (gossip votes). -/
def Store.process_attestation (st : Store) (signed_attestation : SignedValidatorAttestation)
    (is_from_block : Bool) : Except (String × Store) Store :=
  match Store.validate_attestation st signed_attestation with
  | .error e => .error (e, st)
  | .ok _ =>
    let attestation := signed_attestation.message
    let validator_id := attestation.validator_id
    let attestation_slot := attestation.data.slot
    if is_from_block then
      -- update latest known votes if this is latest
      let st1 :=
        match dictLookup st.latest_known_votes validator_id with
        | none =>
          { st with latest_known_votes :=
              dictInsert st.latest_known_votes validator_id signed_attestation }
        | some latest_known =>
          if latest_known.message.data.slot < attestation_slot then
            { st with latest_known_votes :=
                dictInsert st.latest_known_votes validator_id signed_attestation }
          else st
      -- clear from new votes if this is latest
      let st2 :=
        match dictLookup st1.latest_new_votes validator_id with
        | some latest_new =>
          if latest_new.message.data.slot ≤ attestation_slot then
            { st1 with latest_new_votes := dictErase st1.latest_new_votes validator_id }
          else st1
        | none => st1
      .ok st2
    else
      -- `time_slots = Slot(self.time // SECONDS_PER_INTERVAL)`
      if ¬ attestation_slot ≤ st.time / SECONDS_PER_INTERVAL then
        .error ("Attestation from future slot", st)
      else
        -- update latest new votes if this is the latest
        match dictLookup st.latest_new_votes validator_id with
        | none =>
          .ok { st with latest_new_votes :=
                  dictInsert st.latest_new_votes validator_id signed_attestation }
        | some latest_new =>
          if latest_new.message.data.slot < attestation_slot then
            .ok { st with latest_new_votes :=
                    dictInsert st.latest_new_votes validator_id signed_attestation }
          else .ok st

/-! ### Head-selection helpers

`subspecs/forkchoice/helpers.py` (`get_fork_choice_head`,
`get_latest_justified`) is not present under `src/`; only its callers in
`store.py` and its tests are.  The two functions below are modelled from the
spec's description of them. -/

/-- One step of the maximum-slot scan of `get_latest_justified`. -/
def gljStep (acc : Option Checkpoint) (kv : Root × State) : Option Checkpoint :=
  match acc with
  | none => some kv.2.latest_justified
  | some c =>
    if kv.2.latest_justified.slot > c.slot then some kv.2.latest_justified else acc

/-- Modelled from the spec: `get_latest_justified(states)` returns the
`latest_justified` checkpoint with the maximum slot across all held states
(`helpers.py` is missing from the sources; ties keep the earliest entry,
which the spec leaves unspecified beyond "deterministic"). -/
def get_latest_justified (states : Dict Root State) : Option Checkpoint :=
  states.foldl gljStep none

/-- Lexicographic (bit-for-bit) order on block roots, used as the
fork-choice tie-break. -/
def rootLexLt : Root → Root → Bool
  | [], [] => false
  | [], _ :: _ => true
  | _ :: _, [] => false
  | a :: as, b :: bs => if a < b then true else if b < a then false else rootLexLt as bs

/-- Fuelled ancestry walk: does the parent chain starting at `cur` pass
through `anc`? -/
def chainContains (blocks : Dict Root Block) : Nat → Root → Root → Bool
  | 0, anc, cur => cur = anc
  | fuel + 1, anc, cur =>
    if cur = anc then true
    else
      match dictLookup blocks cur with
      | none => false
      | some b => chainContains blocks fuel anc b.parent_root

/-- Number of validators whose recorded vote target's ancestry passes
through `child`. -/
def voteWeight (blocks : Dict Root Block)
    (latest_attestations : Dict Nat SignedValidatorAttestation) (child : Root) : Nat :=
  (latest_attestations.filter
    (fun kv => chainContains blocks blocks.length child kv.2.message.data.target.root)).length

/-- Roots of the blocks whose parent is `root`. -/
def childrenOf (blocks : Dict Root Block) (root : Root) : List Root :=
  (blocks.filter (fun kv => kv.2.parent_root = root)).map (fun kv => kv.1)

/-- The max-weight child, ties broken toward the lexicographically largest
root; `none` when `root` is a leaf. -/
def bestChild (blocks : Dict Root Block)
    (latest_attestations : Dict Nat SignedValidatorAttestation) (root : Root) :
    Option (Root × Nat) :=
  (childrenOf blocks root).foldl
    (fun acc c =>
      let w := voteWeight blocks latest_attestations c
      match acc with
      | none => some (c, w)
      | some (c0, w0) =>
        if w > w0 ∨ (w = w0 ∧ rootLexLt c0 c) then some (c, w) else acc)
    none

/-- The greedy heaviest-subtree descent loop. -/
def forkChoiceLoop (blocks : Dict Root Block)
    (latest_attestations : Dict Nat SignedValidatorAttestation) (min_score : Nat) :
    Nat → Root → Root
  | 0, cur => cur
  | fuel + 1, cur =>
    match bestChild blocks latest_attestations cur with
    | none => cur
    | some (c, w) =>
      if w < min_score then cur
      else forkChoiceLoop blocks latest_attestations min_score fuel c

/-- Modelled from the spec: `get_fork_choice_head(blocks, root,
latest_attestations, min_score)` performs a greedy heaviest-subtree descent
from `root`, descending into the max-weight child (weight = number of
validators whose vote target's ancestry passes through the child), stopping
at a leaf or when no child reaches `min_score`; ties choose the
lexicographically largest block root (`helpers.py` is missing from the
sources). -/
def get_fork_choice_head (blocks : Dict Root Block) (root : Root)
    (latest_attestations : Dict Nat SignedValidatorAttestation)
    (min_score : Nat) : Root :=
  forkChoiceLoop blocks latest_attestations min_score blocks.length root

/-- `Store.update_head`: refresh `latest_justified` from the held states,
recompute the head by LMD-GHOST over the known votes, and take
`latest_finalized` from the new head's post-state. -/
def Store.update_head (st : Store) : Store :=
  let st1 :=
    match get_latest_justified st.states with
    | some latest_justified => { st with latest_justified := latest_justified }
    | none => st
  let new_head := get_fork_choice_head st1.blocks st1.latest_justified.root
    st1.latest_known_votes 0
  let st2 := { st1 with head := new_head }
  match dictLookup st2.states new_head with
  | some finalized_state => { st2 with latest_finalized := finalized_state.latest_finalized }
  | none => st2

/-- `Store.accept_new_votes`: merge all pending votes into the known votes,
clear the pending map, refresh the head. -/
def Store.accept_new_votes (st : Store) : Store :=
  let known := st.latest_new_votes.foldl
    (fun m kv => dictInsert m kv.1 kv.2) st.latest_known_votes
  Store.update_head { st with latest_known_votes := known, latest_new_votes := [] }

/-- `min_target_score = -(-num_validators * 2 // 3)`: `Uint64.__neg__` is not
overridden, so Python evaluates this with plain ints and floor division. -/
def min_target_score (num_validators : Nat) : Nat :=
  (-(Int.fdiv (-(num_validators : Int) * 2) 3)).toNat

/-- `Store.update_safe_target`: recompute the safe target over the pending
votes only, with the 2/3 support threshold. -/
def Store.update_safe_target (st : Store) : Store :=
  let safe_target := get_fork_choice_head st.blocks st.latest_justified.root
    st.latest_new_votes (min_target_score st.config.num_validators)
  { st with safe_target := safe_target }

/-- `Store.tick_interval`: advance one interval and run the interval-specific
action. -/
def Store.tick_interval (st : Store) (has_proposal : Bool) : Store :=
  let st1 := { st with time := st.time + 1 }
  let current_interval := st1.time % INTERVALS_PER_SLOT
  if current_interval = 0 then
    if has_proposal then Store.accept_new_votes st1 else st1
  else if current_interval = 1 then st1
  else if current_interval = 2 then Store.update_safe_target st1
  else Store.accept_new_votes st1

theorem Store.update_head_time (st : Store) :
    (Store.update_head st).time = st.time := by
  unfold Store.update_head
  dsimp only
  split <;> split <;> rfl

theorem Store.accept_new_votes_time (st : Store) :
    (Store.accept_new_votes st).time = st.time := by
  unfold Store.accept_new_votes
  rw [Store.update_head_time]

theorem Store.tick_interval_time (st : Store) (has_proposal : Bool) :
    (Store.tick_interval st has_proposal).time = st.time + 1 := by
  unfold Store.tick_interval
  dsimp only
  split_ifs <;> first
    | rfl
    | exact Store.accept_new_votes_time _

/-- The `while self.time < tick_target` loop of `Store.advance_time`.  Each
tick raises `time` by exactly one, so the loop runs exactly
`tick_target - st.time` times; that count is passed as structural fuel (the
guard is kept, so the function equals the while loop whenever the fuel is at
least the iteration count). -/
def Store.advance_time_loop (has_proposal : Bool) (tick_target : Nat) :
    Nat → Store → Store
  | 0, st => st
  | fuel + 1, st =>
    if st.time < tick_target then
      let should_signal := has_proposal && (st.time + 1 == tick_target)
      Store.advance_time_loop has_proposal tick_target fuel
        (Store.tick_interval st should_signal)
    else st

/-- `Store.advance_time`: tick intervals up to the interval count derived
from the wall-clock `time`; `Uint64` subtraction raises when `time` is before
genesis. -/
def Store.advance_time (st : Store) (time : Nat) (has_proposal : Bool) :
    Except (String × Store) Store :=
  if time < st.config.genesis_time then
    .error ("out of range for Uint64", st)
  else
    let tick_target := (time - st.config.genesis_time) / SECONDS_PER_INTERVAL
    .ok (Store.advance_time_loop has_proposal tick_target (tick_target - st.time) st)

/-- The `for index, attestation in enumerate(block.body.attestations)` replay
loop of `Store.process_block`; each vote is processed with
`is_from_block = True`, paired with its signature when one exists. -/
def Store.replay_attestations (st : Store) (atts : List ValidatorAttestation)
    (signatures : List Nat) (index : Nat) : Except (String × Store) Store :=
  match atts with
  | [] => .ok st
  | a :: rest =>
    let signature := signatures.getD index 0
    match Store.process_attestation st { message := a, signature := signature } true with
    | .error e => .error e
    | .ok st2 => Store.replay_attestations st2 rest signatures (index + 1)

/-- `Store.process_block`: no-op when the block is known; otherwise require
the parent post-state, run the state transition, store block and state,
replay the body attestations on-chain, refresh the head, and finally process
the synthesized proposer vote as a gossip vote.

The source passes the bare `block` into `state_transition` (whose parameter
is a signed block and reads `.message`); the `Container` base class is not
under `src/`, so the model resolves the mismatch in the evident way: the
state transition runs on the block itself, with the stub-validated
signature flag. -/
def Store.process_block (H : HashModel) (st : Store) (block : Block)
    (signatures : List Nat) : Except (String × Store) Store :=
  let block_hash := H.hashBlock block
  if (dictLookup st.blocks block_hash).isSome then
    -- If the block is already known, ignore it
    .ok st
  else
    match dictLookup st.states block.parent_root with
    | none => .error ("Parent state not found; sync parent chain first", st)
    | some parent_state =>
      -- `_validate_block_signatures` is a stub returning True
      let valid_signatures := true
      match State.state_transition H parent_state
          { message := block, signature := signatures } valid_signatures with
      | .error e => .error (e, st)
      | .ok state =>
        let st1 := { st with
          blocks := dictInsert st.blocks block_hash block
          states := dictInsert st.states block_hash state }
        match Store.replay_attestations st1 block.body.attestations signatures 0 with
        | .error e => .error e
        | .ok st2 =>
          let st3 := Store.update_head st2
          let proposer_signature := signatures.getD block.body.attestations.length 0
          let proposer_attestation : ValidatorAttestation :=
            { validator_id := block.proposer_index
              data := { slot := block.slot
                        head := { root := block_hash, slot := block.slot }
                        target := block.body.proposer_attestation.target
                        source := block.body.proposer_attestation.source } }
          Store.process_attestation st3
            { message := proposer_attestation, signature := proposer_signature } false

/-- `Store.get_proposal_head`: advance to the wall-clock instant of `slot`
with a proposal, force-flush the pending votes, and return the head (the
model returns the mutated store alongside it). -/
def Store.get_proposal_head (st : Store) (slot : Nat) :
    Except (String × Store) (Store × Root) :=
  let slot_time := st.config.genesis_time + slot * SECONDS_PER_SLOT
  match Store.advance_time st slot_time true with
  | .error e => .error e
  | .ok st1 =>
    let st2 := Store.accept_new_votes st1
    .ok (st2, st2.head)

/-! ## Shared witness scaffolding

A concrete hash model and a tiny concrete scenario used to instantiate
hypotheses of the theorems below. -/

/-- A trivial digest model: every digest is the zero digest.  Sufficient for
scenarios whose control flow never distinguishes two digests. -/
def wH : HashModel :=
  { hashHeader := fun _ => [], hashBody := fun _ => [], hashState := fun _ => [] }

/-- Genesis with one validator, `genesis_time = 1000000`. -/
def wGenesis : State := State.generate_genesis wH 1000000 1

/-- An empty block at slot 1 on top of `wGenesis`, with the correct parent
root and state root under `wH`. -/
def wBlock : Block :=
  { slot := 1, proposer_index := 0, parent_root := [], state_root := [], body := emptyBody }

/-- `wGenesis` advanced to slot 1. -/
def wS1 : State := State.process_slots_loop wH 1 1 wGenesis

/-- The post-state of applying `wBlock` at slot 1. -/
def wPost : State :=
  (match State.process_block wH wS1 wBlock with
   | .ok s => s
   | .error _ => wGenesis)

/-! ## C1: `state_transition` behaviour -/

/-- C1: `State.state_transition` raises immediately when `valid_signatures`
is false; otherwise it advances slots to the block's slot and processes the
block (header + attestations), and — whenever that pipeline produces a
post-state `P` — it raises "Invalid block state root" exactly when
`hash_tree_root(P)` differs from the block's `state_root`, and returns `P`
exactly when they agree.  A failed call returns no state at all
(`Except.error` carries only the message). -/
theorem c1_state_transition (H : HashModel) (s : State) (sb : SignedBlock)
    (s2 P : State)
    (h1 : State.process_slots H s sb.message.slot = .ok s2)
    (h2 : State.process_block H s2 sb.message = .ok P) :
    State.state_transition H s sb false = .error "Block signatures must be valid" ∧
    (State.state_transition H s sb true = .error "Invalid block state root" ↔
      sb.message.state_root ≠ H.hashState P) ∧
    (State.state_transition H s sb true = .ok P ↔
      sb.message.state_root = H.hashState P) := by
  have hfalse : State.state_transition H s sb false
      = .error "Block signatures must be valid" := by
    unfold State.state_transition
    rw [if_pos (by simp)]
  have htrue : State.state_transition H s sb true =
      (if sb.message.state_root ≠ H.hashState P then
        Except.error "Invalid block state root" else Except.ok P) := by
    unfold State.state_transition
    rw [if_neg (by simp)]
    dsimp only
    simp only [h1, h2]
  refine ⟨hfalse, ?_, ?_⟩ <;> rw [htrue] <;>
    by_cases hroot : sb.message.state_root = H.hashState P <;> simp [hroot]

/-- C1 witness: the genesis-plus-one-block scenario; the round-trip block
(whose `state_root` matches the hash of its true resulting state) is
accepted, and the same call with `valid_signatures = False` fails
immediately. -/
theorem c1_state_transition_witness :
    State.state_transition wH wGenesis { message := wBlock, signature := [] } true
      = .ok wPost ∧
    State.state_transition wH wGenesis { message := wBlock, signature := [] } false
      = .error "Block signatures must be valid" := by
  have h := c1_state_transition wH wGenesis { message := wBlock, signature := [] }
    wS1 wPost rfl rfl
  exact ⟨h.2.2.mpr rfl, h.1⟩

/-! ## C2: the attestation-processing loop -/

/-- The per-vote update exactly as the specification sentence describes it:
skip when `source.slot ≥ target.slot` or the source slot is outside the
tracked `justified_slots` window; if source is justified and target already
justified with `target.slot = source.slot + 1` and the pair newer than
`latest_justified`, finalize source and advance `latest_justified` to
target; otherwise, if source is justified and target is not, mark the target
slot justified and update `latest_justified` exactly when the target is
newer. -/
def specVoteStep (acc : JustAcc) (a : ValidatorAttestation) : JustAcc :=
  let source := a.data.source
  let target := a.data.target
  if source.slot ≥ target.slot ∨ acc.justified_slots.length ≤ source.slot then acc
  else
    let sourceJustified := acc.justified_slots.getD source.slot false
    let targetJustified := decide (target.slot < acc.justified_slots.length) &&
      acc.justified_slots.getD target.slot false
    if sourceJustified ∧ targetJustified ∧ target.slot = source.slot + 1 ∧
        acc.latest_justified.slot < target.slot then
      { acc with latest_finalized := source, latest_justified := target }
    else if sourceJustified ∧ targetJustified = false then
      { justified_slots := markJustified acc.justified_slots target.slot
        latest_justified :=
          if acc.latest_justified.slot < target.slot then target else acc.latest_justified
        latest_finalized := acc.latest_finalized }
    else acc

theorem attStep_eq_specVoteStep (acc : JustAcc) (a : ValidatorAttestation) :
    attStep acc a = specVoteStep acc a := by
  unfold attStep specVoteStep
  dsimp only
  by_cases hskip : a.data.source.slot ≥ a.data.target.slot
  · simp [hskip]
  · by_cases hwin : a.data.source.slot < acc.justified_slots.length
    case neg =>
      have h2 : acc.justified_slots.length ≤ a.data.source.slot := by omega
      simp [hskip, hwin, h2]
    case pos =>
      have h2 : ¬ (acc.justified_slots.length ≤ a.data.source.slot) := by omega
      cases hS : acc.justified_slots.getD a.data.source.slot false with
      | false => simp [hskip, hwin, h2, hS]
      | true =>
        cases hT : (decide (a.data.target.slot < acc.justified_slots.length) &&
            acc.justified_slots.getD a.data.target.slot false) with
        | true =>
          by_cases hconsec : a.data.source.slot + 1 = a.data.target.slot
          · by_cases hnew : acc.latest_justified.slot < a.data.target.slot <;>
              simp [hskip, hwin, h2, hconsec, hnew]
          · have hconsec2 : ¬ (a.data.target.slot = a.data.source.slot + 1) :=
              fun hc => hconsec hc.symm
            simp [hskip, hwin, h2, hconsec, hconsec2]
        | false =>
          by_cases hnew : acc.latest_justified.slot < a.data.target.slot <;>
            simp [hskip, hwin, h2, hnew]

/-- C2: `State.process_attestations` handles the votes in list order, each
vote updating the running `(justified_slots, latest_justified,
latest_finalized)` accumulator exactly as described by `specVoteStep` (skip
out-of-order or out-of-window votes; finalize source and justify target for
a consecutive already-justified pair newer than `latest_justified`;
otherwise mark the target justified and take it as `latest_justified`
exactly when newer). -/
theorem c2_process_attestations (s : State) (attestations : List ValidatorAttestation) :
    State.process_attestations s attestations =
      (let acc := attestations.foldl specVoteStep
        { justified_slots := s.justified_slots
          latest_justified := s.latest_justified
          latest_finalized := s.latest_finalized }
       { s with
          justified_slots := acc.justified_slots
          latest_justified := acc.latest_justified
          latest_finalized := acc.latest_finalized }) := by
  unfold State.process_attestations
  have hfold : ∀ (l : List ValidatorAttestation) (acc : JustAcc),
      l.foldl attStep acc = l.foldl specVoteStep acc := by
    intro l
    induction l with
    | nil => intro acc; rfl
    | cons a rest ih =>
      intro acc
      simp only [List.foldl_cons, attStep_eq_specVoteStep, ih]
  rw [hfold]

/-! ## C3: the `latest_finalized ≤ latest_justified ≤ slot` invariant -/

/-- A vote whose target slot (5) is far beyond the state's slot. -/
def wVote5 : ValidatorAttestation :=
  { validator_id := 0
    data := { slot := 1
              head := { root := [], slot := 0 }
              target := { root := [7], slot := 5 }
              source := { root := [], slot := 0 } } }

/-- C3 counterexample: one `process_slot` from genesis followed by
`process_attestations` with a single vote targeting slot 5 yields a
reachable state with `latest_justified.slot = 5 > slot = 1`, so the claimed
invariant `latest_finalized.slot ≤ latest_justified.slot ≤ slot` is not
preserved by `process_attestations`. -/
theorem c3_counterexample :
    ¬ ((State.process_attestations (State.process_slot wH wGenesis)
          [wVote5]).latest_justified.slot ≤
        (State.process_attestations (State.process_slot wH wGenesis) [wVote5]).slot) := by
  decide

/-- `latest_finalized.slot ≤ latest_justified.slot` — the part of the claimed
invariant that the transition functions do preserve. -/
def finalizedLeJustified (s : State) : Prop :=
  s.latest_finalized.slot ≤ s.latest_justified.slot

instance (s : State) : Decidable (finalizedLeJustified s) :=
  inferInstanceAs (Decidable (_ ≤ _))

theorem attStep_finalizedLeJustified (acc : JustAcc) (a : ValidatorAttestation)
    (h : acc.latest_finalized.slot ≤ acc.latest_justified.slot) :
    (attStep acc a).latest_finalized.slot ≤ (attStep acc a).latest_justified.slot := by
  rw [attStep_eq_specVoteStep]
  unfold specVoteStep
  dsimp only
  split_ifs with hg hfin hmark hnew
  · exact h
  · obtain ⟨-, -, hc, -⟩ := hfin
    dsimp only
    omega
  · dsimp only
    omega
  · exact h
  · exact h

theorem foldl_attStep_finalizedLeJustified (l : List ValidatorAttestation)
    (acc : JustAcc) (h : acc.latest_finalized.slot ≤ acc.latest_justified.slot) :
    (l.foldl attStep acc).latest_finalized.slot ≤
      (l.foldl attStep acc).latest_justified.slot := by
  induction l generalizing acc with
  | nil => exact h
  | cons a rest ih =>
    exact ih _ (attStep_finalizedLeJustified acc a h)

theorem process_slots_loop_checkpoints (H : HashModel) (target fuel : Nat) :
    ∀ s : State,
      (State.process_slots_loop H target fuel s).latest_justified = s.latest_justified ∧
      (State.process_slots_loop H target fuel s).latest_finalized = s.latest_finalized := by
  induction fuel with
  | zero => intro s; exact ⟨rfl, rfl⟩
  | succ n ih =>
    intro s
    unfold State.process_slots_loop
    split
    · exact ih (State.process_slot H s)
    · exact ⟨rfl, rfl⟩

/-- C3 amended: every one of the five transition functions preserves
`latest_finalized.slot ≤ latest_justified.slot`, and genesis satisfies it
(the `latest_justified.slot ≤ slot` half is refuted by the counterexample). -/
theorem c3_amended_invariant (H : HashModel) (s : State)
    (hs : finalizedLeJustified s) :
    finalizedLeJustified (State.process_slot H s) ∧
    (∀ target s2, State.process_slots H s target = .ok s2 → finalizedLeJustified s2) ∧
    (∀ b s2, State.process_block_header H s b = .ok s2 → finalizedLeJustified s2) ∧
    (∀ attestations, finalizedLeJustified (State.process_attestations s attestations)) ∧
    (∀ sb vs s2, State.state_transition H s sb vs = .ok s2 → finalizedLeJustified s2) ∧
    (∀ gt nv, finalizedLeJustified (State.generate_genesis H gt nv)) := by
  have hslot : finalizedLeJustified (State.process_slot H s) := hs
  have hloop : ∀ target fuel, finalizedLeJustified (State.process_slots_loop H target fuel s) := by
    intro target fuel
    have h2 := process_slots_loop_checkpoints H target fuel s
    unfold finalizedLeJustified
    rw [h2.1, h2.2]
    exact hs
  have hpa : ∀ (s3 : State), finalizedLeJustified s3 →
      ∀ attestations, finalizedLeJustified (State.process_attestations s3 attestations) := by
    intro s3 h3 attestations
    unfold State.process_attestations finalizedLeJustified
    exact foldl_attStep_finalizedLeJustified _ _ h3
  have hpbh : ∀ (s3 : State), finalizedLeJustified s3 → ∀ b s2,
      State.process_block_header H s3 b = .ok s2 → finalizedLeJustified s2 := by
    intro s3 h3 b s2 hok
    unfold State.process_block_header at hok
    split at hok
    · exact absurd hok (by simp)
    · split at hok
      · exact absurd hok (by simp)
      · split at hok
        · exact absurd hok (by simp)
        · cases hok
          exact h3
  refine ⟨hslot, ?_, hpbh s hs, hpa s hs, ?_, ?_⟩
  · intro target s2 hok
    unfold State.process_slots at hok
    split at hok
    · exact absurd hok (by simp)
    · cases hok
      exact hloop target _
  · intro sb vs s2 hok
    unfold State.state_transition at hok
    split at hok
    · exact absurd hok (by simp)
    · dsimp only at hok
      cases hps : State.process_slots H s sb.message.slot with
      | error e =>
        rw [hps] at hok
        exact absurd hok (by simp)
      | ok s3 =>
        rw [hps] at hok
        dsimp only at hok
        have h3 : finalizedLeJustified s3 := by
          unfold State.process_slots at hps
          split at hps
          · exact absurd hps (by simp)
          · cases hps
            exact hloop _ _
        cases hpb : State.process_block H s3 sb.message with
        | error e =>
          rw [hpb] at hok
          exact absurd hok (by simp)
        | ok s4 =>
          rw [hpb] at hok
          dsimp only at hok
          have h4 : finalizedLeJustified s4 := by
            unfold State.process_block at hpb
            cases hh : State.process_block_header H s3 sb.message with
            | error e =>
              rw [hh] at hpb
              exact absurd hpb (by simp)
            | ok s5 =>
              rw [hh] at hpb
              dsimp only at hpb
              cases hpb
              exact hpa s5 (hpbh s3 h3 sb.message s5 hh) _
          split at hok
          · exact absurd hok (by simp)
          · cases hok
            exact h4
  · intro gt nv
    unfold finalizedLeJustified State.generate_genesis
    exact le_refl 0

/-- C3 amended witness: the preserved half of the invariant at the concrete
genesis scenario. -/
theorem c3_amended_invariant_witness :
    finalizedLeJustified (State.process_slot wH wGenesis) ∧
    finalizedLeJustified (State.process_attestations wGenesis [wVote5]) := by
  have h := c3_amended_invariant wH wGenesis (by decide)
  exact ⟨h.1, h.2.2.2.1 [wVote5]⟩

/-! ## C6: `validate_attestation` -/

deriving instance DecidableEq for Except

/-- An empty fallback store (only used as the default of `Option.getD` on
branches proven unreachable). -/
def dummyStore : Store :=
  { time := 0
    config := { num_validators := 0, genesis_time := 0 }
    head := []
    safe_target := []
    latest_justified := { root := [], slot := 0 }
    latest_finalized := { root := [], slot := 0 }
    blocks := []
    states := []
    latest_known_votes := []
    latest_new_votes := [] }

/-- A slot-0 block registered under root `[1]` in the C6 scenario. -/
def c6Block : Block :=
  { slot := 0, proposer_index := 0, parent_root := [], state_root := [], body := emptyBody }

/-- A store whose interval counter is 8 (slot 2 of the chain) holding one
known block. -/
def c6Store : Store :=
  { dummyStore with time := 8, blocks := [([1], c6Block)] }

/-- An attestation for slot 4 whose checkpoints reference the known block. -/
def c6Att : SignedValidatorAttestation :=
  { message :=
      { validator_id := 0
        data := { slot := 4
                  head := { root := [1], slot := 0 }
                  target := { root := [1], slot := 0 }
                  source := { root := [1], slot := 0 } } }
    signature := 0 }

/-- C6 counterexample: the claim reads the temporal bound as `vote.slot ≤
(store.time converted from intervals to slots) + 1`, i.e. `store.time //
INTERVALS_PER_SLOT + 1`.  At `time = 8` (slot 2) an attestation for slot 4
violates that bound (4 > 2 + 1), yet the code accepts it, because it
computes `current_slot = time // SECONDS_PER_INTERVAL = time // 1 = time`
and checks `4 ≤ 8 + 1`. -/
theorem c6_counterexample :
    Store.validate_attestation c6Store c6Att = Except.ok () ∧
    c6Att.message.data.slot > c6Store.time / INTERVALS_PER_SLOT + 1 := by
  constructor
  · decide
  · decide

/-- The raise condition of `validate_attestation` as the amended claim
states it: unknown source/target root; source block slot exceeding target
block slot; checkpoint slot differing from its block's slot; or the
attestation slot exceeding `store.time // SECONDS_PER_INTERVAL + 1` (which,
with `SECONDS_PER_INTERVAL = 1`, is the raw interval counter plus one, not
the slot number). -/
def validateRaiseCond (st : Store) (sa : SignedValidatorAttestation) : Prop :=
  let data := sa.message.data
  match dictLookup st.blocks data.source.root, dictLookup st.blocks data.target.root with
  | some source_block, some target_block =>
      target_block.slot < source_block.slot ∨
      source_block.slot ≠ data.source.slot ∨
      target_block.slot ≠ data.target.slot ∨
      data.slot > st.time / SECONDS_PER_INTERVAL + 1
  | _, _ => True

/-- C6 amended: `validate_attestation` raises (i.e. does not return `ok`)
exactly when the amended condition holds — the temporal bound uses
`store.time // SECONDS_PER_INTERVAL = store.time`, the interval counter
itself; it performs no mutation in either case (the model's function only
reads the store). -/
theorem c6_amended_validate_attestation (st : Store) (sa : SignedValidatorAttestation) :
    (Store.validate_attestation st sa ≠ .ok ()) ↔ validateRaiseCond st sa := by
  unfold Store.validate_attestation validateRaiseCond
  dsimp only
  cases hsb : dictLookup st.blocks sa.message.data.source.root with
  | none => simp
  | some source_block =>
    cases htb : dictLookup st.blocks sa.message.data.target.root with
    | none => simp
    | some target_block =>
      split_ifs <;> simp <;> first
        | omega
        | (split_ifs <;> simp <;> omega)

/-- C6 amended witness: at the concrete C6 scenario the code accepts the
attestation and the amended raise condition indeed does not hold. -/
theorem c6_amended_validate_attestation_witness :
    Store.validate_attestation c6Store c6Att = Except.ok () ∧
    ¬ validateRaiseCond c6Store c6Att :=
  ⟨by decide,
   fun h => (c6_amended_validate_attestation c6Store c6Att).mpr h (by decide)⟩

/-! ## C7: `tick_interval` -/

/-- C7: every `tick_interval(has_proposal)` call increments `store.time` by
exactly one interval, and then acts by the new time modulo
`INTERVALS_PER_SLOT`: at interval 0 it merges and clears the pending votes
and recomputes the head when and only when `has_proposal` holds (otherwise
it does nothing further); at interval 1 nothing further happens; at interval
2 it recomputes `safe_target` by the fork-choice descent over
`latest_new_votes` only with minimum support `-(-2n // 3) = ⌈2n/3⌉`; at
interval 3 it unconditionally merges the pending votes and recomputes the
head. -/
theorem c7_tick_interval (st : Store) (has_proposal : Bool) :
    (Store.tick_interval st has_proposal).time = st.time + 1 ∧
    ((st.time + 1) % INTERVALS_PER_SLOT = 0 →
      Store.tick_interval st has_proposal =
        (if has_proposal then Store.accept_new_votes { st with time := st.time + 1 }
         else { st with time := st.time + 1 })) ∧
    ((st.time + 1) % INTERVALS_PER_SLOT = 1 →
      Store.tick_interval st has_proposal = { st with time := st.time + 1 }) ∧
    ((st.time + 1) % INTERVALS_PER_SLOT = 2 →
      Store.tick_interval st has_proposal =
        Store.update_safe_target { st with time := st.time + 1 }) ∧
    ((st.time + 1) % INTERVALS_PER_SLOT = 3 →
      Store.tick_interval st has_proposal =
        Store.accept_new_votes { st with time := st.time + 1 }) ∧
    (∀ s : Store, Store.accept_new_votes s =
      Store.update_head
        { s with
            latest_known_votes := s.latest_new_votes.foldl
              (fun m kv => dictInsert m kv.1 kv.2) s.latest_known_votes
            latest_new_votes := [] }) ∧
    (∀ s : Store, Store.update_safe_target s =
      { s with safe_target :=
          (get_fork_choice_head s.blocks s.latest_justified.root s.latest_new_votes
            (min_target_score s.config.num_validators)) }) ∧
    (∀ n : Nat, min_target_score n = (2 * n + 2) / 3) := by
  refine ⟨Store.tick_interval_time st has_proposal, ?_, ?_, ?_, ?_,
    fun s => rfl, fun s => rfl, ?_⟩
  · intro h
    unfold Store.tick_interval
    dsimp only
    rw [if_pos h]
  · intro h
    unfold Store.tick_interval
    dsimp only
    rw [if_neg (by omega), if_pos h]
  · intro h
    unfold Store.tick_interval
    dsimp only
    rw [if_neg (by omega), if_neg (by omega), if_pos h]
  · intro h
    unfold Store.tick_interval
    dsimp only
    rw [if_neg (by omega), if_neg (by omega), if_neg (by omega)]
  · intro n
    unfold min_target_score
    rw [Int.fdiv_eq_ediv _ (by norm_num)]
    omega

/-! ## C9: reprocessing a known block -/

/-- C9: when the block's `hash_tree_root` is already a key of
`store.blocks`, `process_block` returns without raising and leaves the store
exactly as it was. -/
theorem c9_process_block_idempotent (H : HashModel) (st : Store) (b : Block)
    (signatures : List Nat)
    (h : (dictLookup st.blocks (H.hashBlock b)).isSome) :
    Store.process_block H st b signatures = .ok st := by
  unfold Store.process_block
  rw [if_pos h]

/-- The anchor block of the shared witness store (slot 0, roots consistent
with the trivial hash model `wH`). -/
def wAnchorBlock : Block :=
  { slot := 0, proposer_index := 0, parent_root := [], state_root := [], body := emptyBody }

/-- The store created from the `(wGenesis, wAnchorBlock)` anchor pair. -/
def wStore : Store :=
  (Store.get_forkchoice_store wH wGenesis wAnchorBlock).toOption.getD dummyStore

/-- C9 witness: feeding the anchor block to the anchor store a second time
returns it unchanged. -/
theorem c9_process_block_idempotent_witness :
    (dictLookup wStore.blocks (wH.hashBlock wAnchorBlock)).isSome = true ∧
    Store.process_block wH wStore wAnchorBlock [] = .ok wStore :=
  ⟨by decide, c9_process_block_idempotent wH wStore wAnchorBlock [] (by decide)⟩

/-- C7 witness: at the anchor store (interval counter 0) a tick lands on
interval 1 and does nothing beyond incrementing the time. -/
theorem c7_tick_interval_witness :
    (Store.tick_interval wStore true).time = wStore.time + 1 ∧
    Store.tick_interval wStore true = { wStore with time := wStore.time + 1 } :=
  ⟨(c7_tick_interval wStore true).1,
   (c7_tick_interval wStore true).2.2.1 (by decide)⟩

/-! ## C10: strict vs non-strict slot comparisons in vote bookkeeping -/

/-- C10: on a call that passes validation, (a) a gossip vote whose slot
equals the validator's pending entry's slot does not replace it (strict `<`
governs replacement); (b) an on-chain vote whose slot equals the validator's
known entry's slot does not replace it; yet (c) an on-chain vote whose slot
is greater than or equal to the pending entry's slot always deletes that
pending entry (non-strict `≤` governs superseding), even when the known
entry was not updated. -/
theorem c10_vote_slot_comparisons (st : Store) (sa : SignedValidatorAttestation) :
    (∀ ln st2, dictLookup st.latest_new_votes sa.message.validator_id = some ln →
      ln.message.data.slot = sa.message.data.slot →
      Store.process_attestation st sa false = .ok st2 →
      st2.latest_new_votes = st.latest_new_votes) ∧
    (∀ lk st2, dictLookup st.latest_known_votes sa.message.validator_id = some lk →
      lk.message.data.slot = sa.message.data.slot →
      Store.process_attestation st sa true = .ok st2 →
      st2.latest_known_votes = st.latest_known_votes) ∧
    (∀ ln st2, dictLookup st.latest_new_votes sa.message.validator_id = some ln →
      ln.message.data.slot ≤ sa.message.data.slot →
      Store.process_attestation st sa true = .ok st2 →
      dictLookup st2.latest_new_votes sa.message.validator_id = none) := by
  refine ⟨?_, ?_, ?_⟩
  · intro ln st2 hln heq hok
    unfold Store.process_attestation at hok
    cases hval : Store.validate_attestation st sa with
    | error e => rw [hval] at hok; exact absurd hok (by simp)
    | ok u =>
      rw [hval] at hok
      dsimp only at hok
      rw [if_neg (show ¬ ((false : Bool) = true) by simp)] at hok
      split at hok
      · exact absurd hok (by simp)
      · rw [hln] at hok
        dsimp only at hok
        rw [if_neg (by omega)] at hok
        cases hok
        rfl
  · intro lk st2 hlk heq hok
    unfold Store.process_attestation at hok
    cases hval : Store.validate_attestation st sa with
    | error e => rw [hval] at hok; exact absurd hok (by simp)
    | ok u =>
      rw [hval] at hok
      dsimp only at hok
      rw [if_pos (show (true : Bool) = true from rfl)] at hok
      rw [hlk] at hok
      dsimp only at hok
      rw [if_neg (by omega)] at hok
      cases hnl : dictLookup st.latest_new_votes sa.message.validator_id with
      | none =>
        rw [hnl] at hok
        dsimp only at hok
        cases hok
        rfl
      | some ln =>
        rw [hnl] at hok
        dsimp only at hok
        split at hok <;>
          · cases hok
            rfl
  · intro ln st2 hln hle hok
    unfold Store.process_attestation at hok
    cases hval : Store.validate_attestation st sa with
    | error e => rw [hval] at hok; exact absurd hok (by simp)
    | ok u =>
      rw [hval] at hok
      dsimp only at hok
      rw [if_pos (show (true : Bool) = true from rfl)] at hok
      cases hlk : dictLookup st.latest_known_votes sa.message.validator_id with
      | none =>
        rw [hlk] at hok
        dsimp only at hok
        rw [hln] at hok
        dsimp only at hok
        rw [if_pos hle] at hok
        cases hok
        exact dictLookup_dictErase_self _ _
      | some lk =>
        rw [hlk] at hok
        dsimp only at hok
        by_cases hcmp : lk.message.data.slot < sa.message.data.slot
        · rw [if_pos hcmp] at hok
          dsimp only at hok
          rw [hln] at hok
          dsimp only at hok
          rw [if_pos hle] at hok
          cases hok
          exact dictLookup_dictErase_self _ _
        · rw [if_neg hcmp] at hok
          rw [hln] at hok
          dsimp only at hok
          rw [if_pos hle] at hok
          cases hok
          exact dictLookup_dictErase_self _ _

/-- The known-vote entry (slot 2) held by validator 3 in the C10 scenario. -/
def c10K : SignedValidatorAttestation :=
  { message :=
      { validator_id := 3
        data := { slot := 2
                  head := { root := [1], slot := 0 }
                  target := { root := [1], slot := 0 }
                  source := { root := [1], slot := 0 } } }
    signature := 1 }

/-- The pending-vote entry (slot 2) held by validator 3. -/
def c10N : SignedValidatorAttestation :=
  { c10K with signature := 2 }

/-- An incoming vote by validator 3 for the same data, slot 2. -/
def c10A : SignedValidatorAttestation :=
  { c10K with signature := 3 }

/-- A store holding one block, one known vote and one pending vote. -/
def c10Store : Store :=
  { dummyStore with
      time := 5
      blocks := [([1], c6Block)]
      latest_known_votes := [(3, c10K)]
      latest_new_votes := [(3, c10N)] }

/-- The store after the gossip call of the C10 witness. -/
def c10StA : Store :=
  (Store.process_attestation c10Store c10A false).toOption.getD dummyStore

/-- The store after the on-chain call of the C10 witness. -/
def c10StB : Store :=
  (Store.process_attestation c10Store c10A true).toOption.getD dummyStore

/-- C10 witness: with equal slots, the gossip call keeps the pending map
unchanged and the on-chain call keeps the known map unchanged while deleting
the pending entry. -/
theorem c10_vote_slot_comparisons_witness :
    c10StA.latest_new_votes = c10Store.latest_new_votes ∧
    c10StB.latest_known_votes = c10Store.latest_known_votes ∧
    dictLookup c10StB.latest_new_votes 3 = none :=
  ⟨(c10_vote_slot_comparisons c10Store c10A).1 c10N c10StA (by decide) (by decide)
      (by decide),
   (c10_vote_slot_comparisons c10Store c10A).2.1 c10K c10StB (by decide) (by decide)
      (by decide),
   (c10_vote_slot_comparisons c10Store c10A).2.2 c10N c10StB (by decide) (by decide)
      (by decide)⟩

/-! ## C8: gossip vote then on-chain vote -/

/-- The slot-0 block of the C8 scenario, under root `[1]`. -/
def c8Block : Block :=
  { slot := 0, proposer_index := 0, parent_root := [], state_root := [], body := emptyBody }

/-- A store at interval counter 1 holding one block and no votes. -/
def c8Store : Store :=
  { dummyStore with time := 1, blocks := [([1], c8Block)] }

/-- Gossip vote by validator 7 at attestation slot 1, target `C1 = ([1], 0)`. -/
def c8A1 : SignedValidatorAttestation :=
  { message :=
      { validator_id := 7
        data := { slot := 1
                  head := { root := [1], slot := 0 }
                  target := { root := [1], slot := 0 }
                  source := { root := [1], slot := 0 } } }
    signature := 0 }

/-- On-chain vote by validator 7 at attestation slot 0, target `C2 = ([1], 0)`
(so `C2.slot ≥ C1.slot` holds while the attestation slots decrease). -/
def c8A2 : SignedValidatorAttestation :=
  { message :=
      { validator_id := 7
        data := { slot := 0
                  head := { root := [1], slot := 0 }
                  target := { root := [1], slot := 0 }
                  source := { root := [1], slot := 0 } } }
    signature := 0 }

/-- The store after the gossip call of the C8 counterexample. -/
def c8St1 : Store :=
  (Store.process_attestation c8Store c8A1 false).toOption.getD dummyStore

/-- The store after the on-chain call of the C8 counterexample. -/
def c8St2 : Store :=
  (Store.process_attestation c8St1 c8A2 true).toOption.getD dummyStore

/-- C8 counterexample: validator 7 starts absent from both vote maps, the
gossip vote (for `C1`) and then the on-chain vote (for `C2`, with `C2.slot ≥
C1.slot`) both pass validation, yet the validator is still present in
`latest_new_votes` afterwards: the code compares the attestation data slots
(1 vs 0), not the checkpoint slots, so the pending entry is not superseded. -/
theorem c8_counterexample :
    dictLookup c8Store.latest_known_votes 7 = none ∧
    dictLookup c8Store.latest_new_votes 7 = none ∧
    Store.process_attestation c8Store c8A1 false = .ok c8St1 ∧
    Store.process_attestation c8St1 c8A2 true = .ok c8St2 ∧
    c8A2.message.data.target.slot ≥ c8A1.message.data.target.slot ∧
    ¬ (dictLookup c8St2.latest_new_votes 7 = none) := by
  refine ⟨rfl, rfl, by decide, by decide, by decide, by decide⟩

/-- C8 amended: the precedence is governed by the attestation data slots.
For a validator absent from both maps, a gossip vote followed by an on-chain
vote with an attestation slot greater than or equal to the gossip vote's
leaves `latest_known_votes[v]` at the on-chain vote and removes `v` from
`latest_new_votes`. -/
theorem c8_amended_vote_precedence (st : Store) (a1 a2 : SignedValidatorAttestation)
    (st1 st2 : Store)
    (hv : a2.message.validator_id = a1.message.validator_id)
    (hk : dictLookup st.latest_known_votes a1.message.validator_id = none)
    (hn : dictLookup st.latest_new_votes a1.message.validator_id = none)
    (hslots : a1.message.data.slot ≤ a2.message.data.slot)
    (h1 : Store.process_attestation st a1 false = .ok st1)
    (h2 : Store.process_attestation st1 a2 true = .ok st2) :
    dictLookup st2.latest_known_votes a1.message.validator_id = some a2 ∧
    dictLookup st2.latest_new_votes a1.message.validator_id = none := by
  unfold Store.process_attestation at h1
  cases hval1 : Store.validate_attestation st a1 with
  | error e => rw [hval1] at h1; exact absurd h1 (by simp)
  | ok u =>
    rw [hval1] at h1
    dsimp only at h1
    rw [if_neg (show ¬ ((false : Bool) = true) by simp)] at h1
    split at h1
    · exact absurd h1 (by simp)
    · rw [hn] at h1
      dsimp only at h1
      cases h1
      unfold Store.process_attestation at h2
      cases hval2 : Store.validate_attestation _ a2 with
      | error e => rw [hval2] at h2; exact absurd h2 (by simp)
      | ok u2 =>
        rw [hval2] at h2
        dsimp only at h2
        rw [if_pos (show (true : Bool) = true from rfl)] at h2
        rw [hv] at h2
        rw [hk] at h2
        dsimp only at h2
        rw [dictLookup_dictInsert_self] at h2
        dsimp only at h2
        rw [if_pos hslots] at h2
        cases h2
        constructor
        · exact dictLookup_dictInsert_self _ _ _
        · exact dictLookup_dictErase_self _ _

/-- The on-chain vote of the C8 amended witness: attestation slot 1, equal
to the gossip vote's attestation slot. -/
def c8A2w : SignedValidatorAttestation :=
  { c8A1 with signature := 4 }

/-- The store after the on-chain call of the C8 amended witness. -/
def c8St2w : Store :=
  (Store.process_attestation c8St1 c8A2w true).toOption.getD dummyStore

/-- C8 amended witness: with non-decreasing attestation slots the on-chain
vote lands in `latest_known_votes` and clears the pending entry. -/
theorem c8_amended_vote_precedence_witness :
    dictLookup c8St2w.latest_known_votes 7 = some c8A2w ∧
    dictLookup c8St2w.latest_new_votes 7 = none :=
  c8_amended_vote_precedence c8Store c8A1 c8A2w c8St1 c8St2w rfl rfl rfl
    (by decide) (by decide) (by decide)

/-! ## C4: transactionality of the mutating Store operations -/

/-- A hash model separating blocks by slot (headers hash to their slot;
bodies and states hash to the zero digest).  Injective on the blocks of the
C4 scenario. -/
def c4H : HashModel :=
  { hashHeader := fun h => [h.slot], hashBody := fun _ => [], hashState := fun _ => [] }

/-- Genesis for the C4 scenario (one validator, genesis time 0). -/
def c4Genesis : State := State.generate_genesis c4H 0 1

/-- The anchor block of the C4 scenario (root `[0]`). -/
def c4Anchor : Block :=
  { slot := 0, proposer_index := 0, parent_root := [], state_root := [], body := emptyBody }

/-- The anchor store of the C4 scenario. -/
def c4St : Store :=
  (Store.get_forkchoice_store c4H c4Genesis c4Anchor).toOption.getD dummyStore

/-- A vote whose source root `[9]` is unknown to the store; the state-level
attestation processing accepts it (it never checks roots), the store-level
replay rejects it. -/
def c4BadVote : ValidatorAttestation :=
  { validator_id := 0
    data := { slot := 1
              head := { root := [9], slot := 1 }
              target := { root := [9], slot := 1 }
              source := { root := [9], slot := 0 } } }

/-- A block at slot 1 carrying the bad vote; it passes the full state
transition. -/
def c4B : Block :=
  { slot := 1, proposer_index := 0, parent_root := [0], state_root := []
    body := { attestations := [c4BadVote], proposer_attestation := emptyBody.proposer_attestation } }

/-- The store carried by the error that `process_block` raises on `c4B`. -/
def c4ErrStore : Store :=
  match Store.process_block c4H c4St c4B [] with
  | .error e => e.2
  | .ok s => s

/-- C4 counterexample: `process_block` validates each body attestation only
while replaying it, after the block and its post-state were already inserted
— the call raises "Unknown source block" and leaves the store mutated (the
new block is in `store.blocks`), so a failed call does not leave the Store
as it was. -/
theorem c4_counterexample :
    Store.process_block c4H c4St c4B [] = .error ("Unknown source block", c4ErrStore) ∧
    dictLookup c4St.blocks (c4H.hashBlock c4B) = none ∧
    dictLookup c4ErrStore.blocks (c4H.hashBlock c4B) = some c4B ∧
    c4ErrStore ≠ c4St := by
  refine ⟨by decide, by decide, by decide, by decide⟩

/-- Helper: `process_attestation` is transactional — a raising call returns
the store exactly as it was. -/
theorem pa_error_store (st : Store) (sa : SignedValidatorAttestation)
    (is_from_block : Bool) (e : String) (s2 : Store)
    (h : Store.process_attestation st sa is_from_block = .error (e, s2)) :
    s2 = st := by
  unfold Store.process_attestation at h
  cases hval : Store.validate_attestation st sa with
  | error e2 =>
    rw [hval] at h
    cases h
    rfl
  | ok u =>
    rw [hval] at h
    dsimp only at h
    cases is_from_block with
    | true =>
      rw [if_pos (show (true : Bool) = true from rfl)] at h
      exact absurd h (by simp)
    | false =>
      rw [if_neg (show ¬ ((false : Bool) = true) by simp)] at h
      split at h
      · cases h
        rfl
      · split at h <;> try split at h
        all_goals exact absurd h (by simp)

/-- Helper: `advance_time` raises only on the `Uint64` subtraction
underflow, before any tick, with the store unchanged. -/
theorem advance_time_error_store (st : Store) (t : Nat) (p : Bool) (e : String)
    (s2 : Store) (h : Store.advance_time st t p = .error (e, s2)) : s2 = st := by
  unfold Store.advance_time at h
  split at h
  · cases h
    rfl
  · exact absurd h (by simp)

/-- Helper: the two early error exits of `process_block` leave the store
unchanged. -/
theorem process_block_early_errors (H : HashModel) (st : Store) (b : Block)
    (signatures : List Nat)
    (hfresh : dictLookup st.blocks (H.hashBlock b) = none) :
    (dictLookup st.states b.parent_root = none →
      Store.process_block H st b signatures =
        .error ("Parent state not found; sync parent chain first", st)) ∧
    (∀ ps e, dictLookup st.states b.parent_root = some ps →
      State.state_transition H ps { message := b, signature := signatures } true = .error e →
      Store.process_block H st b signatures = .error (e, st)) := by
  constructor
  · intro hps
    unfold Store.process_block
    rw [if_neg (by simp [hfresh]), hps]
  · intro ps e hps hstf
    unfold Store.process_block
    rw [if_neg (by simp [hfresh]), hps]
    dsimp only
    rw [hstf]

/-- C4 amended: `process_attestation` and `advance_time` are transactional
(a raising call leaves the Store exactly as it was; `tick_interval` and
`accept_new_votes` are total and never raise), and `process_block` is
transactional up to its state-transition stage — a missing parent state or a
failing state transition raise with the store unchanged.  The later
attestation-replay failures of `process_block` are not transactional, as the
counterexample shows. -/
theorem c4_amended_transactional (st : Store) :
    (∀ sa f e s2, Store.process_attestation st sa f = .error (e, s2) → s2 = st) ∧
    (∀ t p e s2, Store.advance_time st t p = .error (e, s2) → s2 = st) ∧
    (∀ H b sigs, dictLookup st.blocks (HashModel.hashBlock H b) = none →
      (dictLookup st.states b.parent_root = none →
        Store.process_block H st b sigs =
          .error ("Parent state not found; sync parent chain first", st)) ∧
      (∀ ps e, dictLookup st.states b.parent_root = some ps →
        State.state_transition H ps { message := b, signature := sigs } true = .error e →
        Store.process_block H st b sigs = .error (e, st))) :=
  ⟨fun sa f e s2 h => pa_error_store st sa f e s2 h,
   fun t p e s2 h => advance_time_error_store st t p e s2 h,
   fun H b sigs hfresh => process_block_early_errors H st b sigs hfresh⟩

/-- A block whose parent is unknown to the C4 store. -/
def c4Orphan : Block :=
  { slot := 1, proposer_index := 0, parent_root := [7], state_root := [], body := emptyBody }

/-- A block with the wrong proposer index, failing the state transition. -/
def c4BadProp : Block :=
  { slot := 1, proposer_index := 1, parent_root := [0], state_root := [], body := emptyBody }

/-- C4 amended witness: a rejected gossip attestation, a pre-genesis
`advance_time`, a missing-parent block and a wrong-proposer block all raise
with the store exactly as it was. -/
theorem c4_amended_witness :
    Store.process_attestation c4St
        { message := c4BadVote, signature := 0 } false =
      .error ("Unknown source block", c4St) ∧
    Store.advance_time wStore 5 false = .error ("out of range for Uint64", wStore) ∧
    Store.process_block c4H c4St c4Orphan [] =
      .error ("Parent state not found; sync parent chain first", c4St) ∧
    Store.process_block c4H c4St c4BadProp [] =
      .error ("Incorrect block proposer", c4St) := by
  refine ⟨?_, ?_, ?_, ?_⟩
  · have h : Store.process_attestation c4St { message := c4BadVote, signature := 0 } false
        = .error ("Unknown source block",
            (match Store.process_attestation c4St { message := c4BadVote, signature := 0 } false with
             | .error e => e.2
             | .ok s => s)) := by decide
    rw [h, (c4_amended_transactional c4St).1 { message := c4BadVote, signature := 0 }
      false _ _ h]
  · have h : Store.advance_time wStore 5 false
        = .error ("out of range for Uint64",
            (match Store.advance_time wStore 5 false with
             | .error e => e.2
             | .ok s => s)) := by decide
    rw [h, (c4_amended_transactional wStore).2.1 5 false _ _ h]
  · exact ((c4_amended_transactional c4St).2.2 c4H c4Orphan [] (by decide)).1 (by decide)
  · exact ((c4_amended_transactional c4St).2.2 c4H c4BadProp [] (by decide)).2
      c4Genesis "Incorrect block proposer" (by decide) (by decide)

/-! ## C5: monotonicity of `time`, `latest_justified.slot`, `latest_finalized.slot`

The counterexample builds two branches on a trusted anchor: branch C
finalizes slot 1 (its chain skipped slots, whose auto-justified bits enable
the one-slot-lookback finalization), branch D never finalizes anything.
When a later block justifies a checkpoint on branch D, `update_head` moves
the head there and copies that head state's lower `latest_finalized`. -/

/-- The store resulting from an `Except` outcome of a mutating method: the
returned store on success, the store at raise time on failure. -/
def resultStore : Except (String × Store) Store → Store
  | .ok s => s
  | .error e => e.2

/-- Hash model of the C5 scenario: a header hashes to its slot followed by
its body root and parent root (injective on the scenario's six distinct
blocks), a body to its attestation count, a state to the zero digest. -/
def c5H : HashModel :=
  { hashHeader := fun h => h.slot :: (h.body_root ++ h.parent_root)
    hashBody := fun b => [b.attestations.length]
    hashState := fun _ => [] }

/-- Proposer vote carried by every non-anchor block: source and target at
the anchor block (root `[1, 0]`, slot 1), so the synthesized gossip vote
always validates. -/
def c5PA : ProposerAttestationData :=
  { target := { root := [1, 0], slot := 1 }, source := { root := [1, 0], slot := 1 } }

/-- The anchor block, at slot 1 (root `[1, 0]`). -/
def c5A1 : Block :=
  { slot := 1, proposer_index := 0, parent_root := [], state_root := [], body := emptyBody }

/-- The trusted anchor state paired with `c5A1`: slot 1, with the
justified-slots bits a chain with empty early slots accumulates
(`process_slot` appends a `true` bit while the genesis header is current). -/
def c5S1 : State :=
  { config := { num_validators := 1, genesis_time := 0 }
    slot := 1
    latest_block_header :=
      { slot := 1, proposer_index := 0, parent_root := [], state_root := [], body_root := [0] }
    latest_justified := { root := [9], slot := 1 }
    latest_finalized := { root := [8], slot := 0 }
    historical_block_hashes := []
    justified_slots := [true, true, true]
    justifications_roots := []
    justifications_validators := [] }

/-- Validator 6's vote: source the anchor (slot 1), target block C2
(slot 2) — a consecutive justified pair, so processing it finalizes slot 1. -/
def c5V1 : ValidatorAttestation :=
  { validator_id := 6
    data := { slot := 3
              head := { root := [2, 0, 1, 0], slot := 2 }
              target := { root := [2, 0, 1, 0], slot := 2 }
              source := { root := [1, 0], slot := 1 } } }

/-- Branch C, slot 2 (root `[2, 0, 1, 0]`). -/
def c5C2 : Block :=
  { slot := 2, proposer_index := 0, parent_root := [1, 0], state_root := []
    body := { attestations := [], proposer_attestation := c5PA } }

/-- Branch C, slot 3, carrying the finalizing vote. -/
def c5C3 : Block :=
  { slot := 3, proposer_index := 0, parent_root := [2, 0, 1, 0], state_root := []
    body := { attestations := [c5V1], proposer_attestation := c5PA } }

/-- A self-referential vote (source = target) that the state transition
skips; it only makes branch D's slot-2 block differ from branch C's. -/
def c5Dummy5 : ValidatorAttestation :=
  { validator_id := 5
    data := { slot := 2
              head := { root := [1, 0], slot := 1 }
              target := { root := [1, 0], slot := 1 }
              source := { root := [1, 0], slot := 1 } } }

/-- Branch D, slot 2 (root `[2, 1, 1, 0]`). -/
def c5D2 : Block :=
  { slot := 2, proposer_index := 0, parent_root := [1, 0], state_root := []
    body := { attestations := [c5Dummy5], proposer_attestation := c5PA } }

/-- Branch D, slot 3 (root `[3, 0, 2, 1, 1, 0]`); its post-state never
finalizes anything. -/
def c5D3 : Block :=
  { slot := 3, proposer_index := 0, parent_root := [2, 1, 1, 0], state_root := []
    body := { attestations := [], proposer_attestation := c5PA } }

/-- Validator 6's later vote justifying branch D's slot-3 block. -/
def c5V2 : ValidatorAttestation :=
  { validator_id := 6
    data := { slot := 4
              head := { root := [3, 0, 2, 1, 1, 0], slot := 3 }
              target := { root := [3, 0, 2, 1, 1, 0], slot := 3 }
              source := { root := [2, 0, 1, 0], slot := 2 } } }

/-- Branch C, slot 4, carrying the vote that moves `latest_justified` (and
hence the head) to branch D. -/
def c5C4 : Block :=
  { slot := 4, proposer_index := 0, parent_root := [3, 1, 2, 0, 1, 0], state_root := []
    body := { attestations := [c5V2], proposer_attestation := c5PA } }

/-- The anchor store of the C5 scenario. -/
def c5St0 : Store :=
  (Store.get_forkchoice_store c5H c5S1 c5A1).toOption.getD dummyStore

/-- Store after processing C2. -/
def c5St1 : Store := resultStore (Store.process_block c5H c5St0 c5C2 [])

/-- Store after processing C3 (head on branch C, `latest_finalized.slot = 1`). -/
def c5St2 : Store := resultStore (Store.process_block c5H c5St1 c5C3 [])

/-- Store after processing D2. -/
def c5St3 : Store := resultStore (Store.process_block c5H c5St2 c5D2 [])

/-- Store after processing D3. -/
def c5St4 : Store := resultStore (Store.process_block c5H c5St3 c5D3 [])

/-- Store after processing C4 (head on branch D, `latest_finalized.slot = 0`). -/
def c5St5 : Store := resultStore (Store.process_block c5H c5St4 c5C4 [])

/-- `store.time` and `latest_justified.slot` never decrease from `a` to `b`
(the two components of the amended monotonicity claim). -/
def storeMono (a b : Store) : Prop :=
  a.time ≤ b.time ∧ a.latest_justified.slot ≤ b.latest_justified.slot

theorem storeMono_refl (a : Store) : storeMono a a := ⟨le_refl _, le_refl _⟩

theorem storeMono_trans {a b c : Store} (h1 : storeMono a b) (h2 : storeMono b c) :
    storeMono a c := ⟨le_trans h1.1 h2.1, le_trans h1.2 h2.2⟩

/-- The reachability invariant supporting the amended monotonicity:
`latest_justified.slot` is bounded by the maximum justified slot over the
held states (which `update_head` overwrites it with), and every state key is
a block key (so `process_block` only ever appends fresh keys to `states`). -/
def StoreInv (st : Store) : Prop :=
  (∃ c, get_latest_justified st.states = some c ∧ st.latest_justified.slot ≤ c.slot) ∧
  (∀ k, dictLookup st.blocks k = none → dictLookup st.states k = none)

theorem gljStep_mono (acc : Option Checkpoint) (kv : Root × State) (c : Checkpoint)
    (h : acc = some c) : ∃ c2, gljStep acc kv = some c2 ∧ c.slot ≤ c2.slot := by
  subst h
  dsimp only [gljStep]
  split_ifs with hgt
  · exact ⟨_, rfl, by omega⟩
  · exact ⟨c, rfl, le_refl _⟩

theorem glj_foldl_mono (l : List (Root × State)) :
    ∀ (acc : Option Checkpoint) (c : Checkpoint), acc = some c →
      ∃ c2, l.foldl gljStep acc = some c2 ∧ c.slot ≤ c2.slot := by
  induction l with
  | nil => intro acc c h; exact ⟨c, h, le_refl _⟩
  | cons kv rest ih =>
    intro acc c h
    obtain ⟨c2, hc2, hle⟩ := gljStep_mono acc kv c h
    obtain ⟨c3, hc3, hle3⟩ := ih (gljStep acc kv) c2 hc2
    exact ⟨c3, hc3, le_trans hle hle3⟩

theorem dictInsert_fresh {κ α : Type} [DecidableEq κ] (m : Dict κ α) (k : κ) (v : α)
    (h : dictLookup m k = none) : dictInsert m k v = m ++ [(k, v)] := by
  induction m with
  | nil => rfl
  | cons kv rest ih =>
    unfold dictLookup at h
    unfold dictInsert
    split at h
    · exact absurd h (by simp)
    · next hne =>
      rw [if_neg hne, ih h]
      rfl

theorem glj_insert_fresh_mono (m : Dict Root State) (k : Root) (v : State)
    (c : Checkpoint) (hfresh : dictLookup m k = none)
    (h : get_latest_justified m = some c) :
    ∃ c2, get_latest_justified (dictInsert m k v) = some c2 ∧ c.slot ≤ c2.slot := by
  rw [dictInsert_fresh m k v hfresh]
  unfold get_latest_justified at h ⊢
  rw [List.foldl_append]
  exact gljStep_mono _ _ c h

/-- `StoreInv` only depends on `states`, `blocks` and `latest_justified`. -/
theorem storeInv_of_fields (a b : Store) (hs : b.states = a.states)
    (hb : b.blocks = a.blocks) (hl : b.latest_justified = a.latest_justified)
    (h : StoreInv a) : StoreInv b := by
  unfold StoreInv at h ⊢
  rw [hs, hb, hl]
  exact h

/-- `get_forkchoice_store` establishes the invariant. -/
theorem get_forkchoice_store_inv (H : HashModel) (stA : State) (ab : Block)
    (st0 : Store) (h : Store.get_forkchoice_store H stA ab = .ok st0) :
    StoreInv st0 := by
  unfold Store.get_forkchoice_store at h
  split at h
  · exact absurd h (by simp)
  · cases h
    constructor
    · exact ⟨stA.latest_justified, rfl, le_refl _⟩
    · intro k hk
      unfold dictLookup at hk ⊢
      split at hk
      · exact absurd hk (by simp)
      · next hne =>
        rw [if_neg hne]
        rfl

/-- `update_head` preserves the invariant and never decreases `time` or
`latest_justified.slot` (it overwrites the latter with the maximum justified
slot over the held states, which bounds it by the invariant). -/
theorem update_head_facts (st : Store) (h : StoreInv st) :
    StoreInv (Store.update_head st) ∧ storeMono st (Store.update_head st) ∧
    (Store.update_head st).time = st.time ∧
    (Store.update_head st).states = st.states ∧
    (Store.update_head st).blocks = st.blocks := by
  obtain ⟨⟨c, hc, hle⟩, hkeys⟩ := h
  unfold Store.update_head
  rw [hc]
  dsimp only
  cases hfs : dictLookup st.states
      (get_fork_choice_head st.blocks c.root st.latest_known_votes 0) with
  | none =>
    exact ⟨⟨⟨c, hc, le_refl _⟩, hkeys⟩, ⟨le_refl _, hle⟩, rfl, rfl, rfl⟩
  | some fs =>
    exact ⟨⟨⟨c, hc, le_refl _⟩, hkeys⟩, ⟨le_refl _, hle⟩, rfl, rfl, rfl⟩

/-- `accept_new_votes` preserves the invariant and is monotone. -/
theorem accept_new_votes_facts (st : Store) (h : StoreInv st) :
    StoreInv (Store.accept_new_votes st) ∧ storeMono st (Store.accept_new_votes st) ∧
    (Store.accept_new_votes st).time = st.time ∧
    (Store.accept_new_votes st).states = st.states ∧
    (Store.accept_new_votes st).blocks = st.blocks := by
  unfold Store.accept_new_votes
  have h2 := update_head_facts
    { st with
        latest_known_votes := st.latest_new_votes.foldl
          (fun m kv => dictInsert m kv.1 kv.2) st.latest_known_votes
        latest_new_votes := [] }
    (storeInv_of_fields st _ rfl rfl rfl h)
  exact ⟨h2.1, h2.2.1, h2.2.2.1, h2.2.2.2.1, h2.2.2.2.2⟩

/-- `update_safe_target` only changes `safe_target`. -/
theorem update_safe_target_facts (st : Store) (h : StoreInv st) :
    StoreInv (Store.update_safe_target st) ∧ storeMono st (Store.update_safe_target st) ∧
    (Store.update_safe_target st).time = st.time ∧
    (Store.update_safe_target st).states = st.states ∧
    (Store.update_safe_target st).blocks = st.blocks :=
  ⟨storeInv_of_fields st _ rfl rfl rfl h, storeMono_refl _, rfl, rfl, rfl⟩

/-- `tick_interval` preserves the invariant and increases `time` by one. -/
theorem tick_interval_facts (st : Store) (h : StoreInv st) (p : Bool) :
    StoreInv (Store.tick_interval st p) ∧ storeMono st (Store.tick_interval st p) := by
  have hbump : StoreInv { st with time := st.time + 1 } :=
    storeInv_of_fields st _ rfl rfl rfl h
  have hmono : storeMono st { st with time := st.time + 1 } :=
    ⟨Nat.le_succ st.time, le_refl _⟩
  unfold Store.tick_interval
  dsimp only
  split_ifs with h0 hp h1 h2
  · have h2 := accept_new_votes_facts _ hbump
    refine ⟨h2.1, storeMono_trans hmono h2.2.1⟩
  · exact ⟨hbump, hmono⟩
  · exact ⟨hbump, hmono⟩
  · have h3 := update_safe_target_facts _ hbump
    exact ⟨h3.1, storeMono_trans hmono h3.2.1⟩
  · have h3 := accept_new_votes_facts _ hbump
    exact ⟨h3.1, storeMono_trans hmono h3.2.1⟩

/-- The `advance_time` loop preserves the invariant and is monotone. -/
theorem advance_time_loop_facts (p : Bool) (target : Nat) :
    ∀ (fuel : Nat) (st : Store), StoreInv st →
      StoreInv (Store.advance_time_loop p target fuel st) ∧
      storeMono st (Store.advance_time_loop p target fuel st) := by
  intro fuel
  induction fuel with
  | zero => intro st h; exact ⟨h, storeMono_refl _⟩
  | succ n ih =>
    intro st h
    unfold Store.advance_time_loop
    split
    · have h1 := tick_interval_facts st h (p && (st.time + 1 == target))
      have h2 := ih _ h1.1
      exact ⟨h2.1, storeMono_trans h1.2 h2.2⟩
    · exact ⟨h, storeMono_refl _⟩

/-- `advance_time` preserves the invariant and is monotone, on success and
on failure alike. -/
theorem advance_time_facts (st : Store) (h : StoreInv st) (t : Nat) (p : Bool) :
    StoreInv (resultStore (Store.advance_time st t p)) ∧
    storeMono st (resultStore (Store.advance_time st t p)) := by
  unfold Store.advance_time
  split
  · exact ⟨h, storeMono_refl _⟩
  · exact advance_time_loop_facts p _ _ st h

/-- `process_attestation` only touches the two vote maps: `time`,
`latest_justified`, `states` and `blocks` are unchanged on success and on
failure alike. -/
theorem pa_fields (st : Store) (sa : SignedValidatorAttestation) (f : Bool) :
    (resultStore (Store.process_attestation st sa f)).time = st.time ∧
    (resultStore (Store.process_attestation st sa f)).latest_justified = st.latest_justified ∧
    (resultStore (Store.process_attestation st sa f)).states = st.states ∧
    (resultStore (Store.process_attestation st sa f)).blocks = st.blocks := by
  unfold Store.process_attestation
  cases hval : Store.validate_attestation st sa with
  | error e => exact ⟨rfl, rfl, rfl, rfl⟩
  | ok u =>
    try dsimp only
    cases f with
    | false =>
      rw [if_neg (show ¬ ((false : Bool) = true) by simp)]
      split
      · exact ⟨rfl, rfl, rfl, rfl⟩
      · cases hln : dictLookup st.latest_new_votes sa.message.validator_id with
        | none => exact ⟨rfl, rfl, rfl, rfl⟩
        | some ln =>
          try dsimp only
          split_ifs <;> exact ⟨rfl, rfl, rfl, rfl⟩
    | true =>
      rw [if_pos (show (true : Bool) = true from rfl)]
      cases hlk : dictLookup st.latest_known_votes sa.message.validator_id with
      | none =>
        try dsimp only
        cases hln : dictLookup st.latest_new_votes sa.message.validator_id with
        | none => exact ⟨rfl, rfl, rfl, rfl⟩
        | some ln =>
          try dsimp only
          split_ifs <;> exact ⟨rfl, rfl, rfl, rfl⟩
      | some lk =>
        try dsimp only
        by_cases hcmp : lk.message.data.slot < sa.message.data.slot
        · rw [if_pos hcmp]
          try dsimp only
          cases hln : dictLookup st.latest_new_votes sa.message.validator_id with
          | none => exact ⟨rfl, rfl, rfl, rfl⟩
          | some ln =>
            try dsimp only
            split_ifs <;> exact ⟨rfl, rfl, rfl, rfl⟩
        · rw [if_neg hcmp]
          try dsimp only
          cases hln : dictLookup st.latest_new_votes sa.message.validator_id with
          | none => exact ⟨rfl, rfl, rfl, rfl⟩
          | some ln =>
            try dsimp only
            split_ifs <;> exact ⟨rfl, rfl, rfl, rfl⟩

/-- The attestation-replay loop of `process_block` also leaves `time`,
`latest_justified`, `states` and `blocks` unchanged. -/
theorem replay_fields (sigs : List Nat) :
    ∀ (atts : List ValidatorAttestation) (i : Nat) (st : Store),
      (resultStore (Store.replay_attestations st atts sigs i)).time = st.time ∧
      (resultStore (Store.replay_attestations st atts sigs i)).latest_justified
        = st.latest_justified ∧
      (resultStore (Store.replay_attestations st atts sigs i)).states = st.states ∧
      (resultStore (Store.replay_attestations st atts sigs i)).blocks = st.blocks := by
  intro atts
  induction atts with
  | nil => intro i st; exact ⟨rfl, rfl, rfl, rfl⟩
  | cons a rest ih =>
    intro i st
    unfold Store.replay_attestations
    dsimp only
    cases hpa : Store.process_attestation st { message := a, signature := sigs.getD i 0 }
        true with
    | error e =>
      have h := pa_fields st { message := a, signature := sigs.getD i 0 } true
      rw [hpa] at h
      exact h
    | ok st2 =>
      have h := pa_fields st { message := a, signature := sigs.getD i 0 } true
      rw [hpa] at h
      have h2 := ih (i + 1) st2
      exact ⟨h2.1.trans h.1, h2.2.1.trans h.2.1, h2.2.2.1.trans h.2.2.1,
        h2.2.2.2.trans h.2.2.2⟩

/-- `process_block` preserves the invariant and never decreases `time` or
`latest_justified.slot`, on success and on failure alike. -/
theorem process_block_facts (H : HashModel) (st : Store) (b : Block)
    (sigs : List Nat) (h : StoreInv st) :
    StoreInv (resultStore (Store.process_block H st b sigs)) ∧
    storeMono st (resultStore (Store.process_block H st b sigs)) := by
  unfold Store.process_block
  dsimp only
  split
  · exact ⟨h, storeMono_refl _⟩
  · next hfresh =>
    cases hps : dictLookup st.states b.parent_root with
    | none => exact ⟨h, storeMono_refl _⟩
    | some parent_state =>
      dsimp only
      cases hstf : State.state_transition H parent_state
          { message := b, signature := sigs } true with
      | error e => exact ⟨h, storeMono_refl _⟩
      | ok state =>
        dsimp only
        have hfreshb : dictLookup st.blocks (HashModel.hashBlock H b) = none := by
          cases hfb : dictLookup st.blocks (HashModel.hashBlock H b) with
          | none => rfl
          | some x =>
            rw [hfb] at hfresh
            exact absurd rfl hfresh
        have hfreshs : dictLookup st.states (HashModel.hashBlock H b) = none :=
          h.2 _ hfreshb
        have hinv1 : StoreInv
            { st with
                blocks := dictInsert st.blocks (HashModel.hashBlock H b) b
                states := dictInsert st.states (HashModel.hashBlock H b) state } := by
          constructor
          · obtain ⟨c, hc, hle⟩ := h.1
            obtain ⟨c2, hc2, hle2⟩ :=
              glj_insert_fresh_mono st.states (HashModel.hashBlock H b) state c hfreshs hc
            exact ⟨c2, hc2, le_trans hle hle2⟩
          · intro k hk
            dsimp only at hk ⊢
            by_cases hkb : k = HashModel.hashBlock H b
            · subst hkb
              rw [dictLookup_dictInsert_self] at hk
              exact absurd hk (by simp)
            · rw [dictLookup_dictInsert_ne _ _ _ _ hkb] at hk
              rw [dictLookup_dictInsert_ne _ _ _ _ hkb]
              exact h.2 k hk
        have hmono1 : storeMono st
            { st with
                blocks := dictInsert st.blocks (HashModel.hashBlock H b) b
                states := dictInsert st.states (HashModel.hashBlock H b) state } :=
          ⟨le_refl _, le_refl _⟩
        cases hrep : Store.replay_attestations
            { st with
                blocks := dictInsert st.blocks (HashModel.hashBlock H b) b
                states := dictInsert st.states (HashModel.hashBlock H b) state }
            b.body.attestations sigs 0 with
        | error e =>
          have hf := replay_fields sigs b.body.attestations 0
            { st with
                blocks := dictInsert st.blocks (HashModel.hashBlock H b) b
                states := dictInsert st.states (HashModel.hashBlock H b) state }
          rw [hrep] at hf
          exact ⟨storeInv_of_fields _ _ hf.2.2.1 hf.2.2.2 hf.2.1 hinv1,
            storeMono_trans hmono1
              ⟨le_of_eq hf.1.symm, le_of_eq (congrArg Checkpoint.slot hf.2.1).symm⟩⟩
        | ok st2 =>
          have hf := replay_fields sigs b.body.attestations 0
            { st with
                blocks := dictInsert st.blocks (HashModel.hashBlock H b) b
                states := dictInsert st.states (HashModel.hashBlock H b) state }
          rw [hrep] at hf
          have hinv2 : StoreInv st2 :=
            storeInv_of_fields _ st2 hf.2.2.1 hf.2.2.2 hf.2.1 hinv1
          have hmono2 : storeMono
              { st with
                  blocks := dictInsert st.blocks (HashModel.hashBlock H b) b
                  states := dictInsert st.states (HashModel.hashBlock H b) state } st2 :=
            ⟨le_of_eq hf.1.symm, le_of_eq (congrArg Checkpoint.slot hf.2.1).symm⟩
          have hu := update_head_facts st2 hinv2
          dsimp only
          have hpaf := pa_fields (Store.update_head st2)
            { message :=
                { validator_id := b.proposer_index
                  data := { slot := b.slot
                            head := { root := HashModel.hashBlock H b, slot := b.slot }
                            target := b.body.proposer_attestation.target
                            source := b.body.proposer_attestation.source } }
              signature := sigs.getD b.body.attestations.length 0 } false
          refine ⟨?_, ?_⟩
          · exact storeInv_of_fields (Store.update_head st2) _
              hpaf.2.2.1 hpaf.2.2.2 hpaf.2.1 hu.1
          · refine storeMono_trans hmono1 (storeMono_trans hmono2
              (storeMono_trans hu.2.1 ?_))
            exact ⟨le_of_eq hpaf.1.symm,
              le_of_eq (congrArg Checkpoint.slot hpaf.2.1).symm⟩

/-- The store resulting from `get_proposal_head` (which also returns the
head root). -/
def resultStoreP : Except (String × Store) (Store × Root) → Store
  | .ok sr => sr.1
  | .error e => e.2

/-- C5 amended: across every sequence of the listed Store operations,
`store.time` and `store.latest_justified.slot` never decrease — each
operation preserves the reachability invariant `StoreInv` (established by
`get_forkchoice_store`) and is monotone in both quantities, on success and
on failure alike.  The third quantity of the original claim,
`latest_finalized.slot`, can decrease, as the counterexample shows. -/
theorem c5_amended_monotonic (st : Store) (h : StoreInv st) :
    (∀ p, StoreInv (Store.tick_interval st p) ∧
      storeMono st (Store.tick_interval st p)) ∧
    (∀ t p, StoreInv (resultStore (Store.advance_time st t p)) ∧
      storeMono st (resultStore (Store.advance_time st t p))) ∧
    (∀ sa f, StoreInv (resultStore (Store.process_attestation st sa f)) ∧
      storeMono st (resultStore (Store.process_attestation st sa f))) ∧
    (∀ H b sigs, StoreInv (resultStore (Store.process_block H st b sigs)) ∧
      storeMono st (resultStore (Store.process_block H st b sigs))) ∧
    (StoreInv (Store.accept_new_votes st) ∧
      storeMono st (Store.accept_new_votes st)) ∧
    (StoreInv (Store.update_head st) ∧ storeMono st (Store.update_head st)) ∧
    (StoreInv (Store.update_safe_target st) ∧
      storeMono st (Store.update_safe_target st)) ∧
    (∀ slot, StoreInv (resultStoreP (Store.get_proposal_head st slot)) ∧
      storeMono st (resultStoreP (Store.get_proposal_head st slot))) ∧
    (∀ H stA ab st0, Store.get_forkchoice_store H stA ab = .ok st0 → StoreInv st0) := by
  refine ⟨fun p => tick_interval_facts st h p,
    fun t p => advance_time_facts st h t p,
    fun sa f => ?_,
    fun H b sigs => process_block_facts H st b sigs h,
    ?_, ?_, ?_, fun slot => ?_,
    fun H stA ab st0 h0 => get_forkchoice_store_inv H stA ab st0 h0⟩
  · have hf := pa_fields st sa f
    exact ⟨storeInv_of_fields st _ hf.2.2.1 hf.2.2.2 hf.2.1 h,
      ⟨le_of_eq hf.1.symm, le_of_eq (congrArg Checkpoint.slot hf.2.1).symm⟩⟩
  · have hf := accept_new_votes_facts st h
    exact ⟨hf.1, hf.2.1⟩
  · have hf := update_head_facts st h
    exact ⟨hf.1, hf.2.1⟩
  · have hf := update_safe_target_facts st h
    exact ⟨hf.1, hf.2.1⟩
  · unfold Store.get_proposal_head
    dsimp only
    cases hadv : Store.advance_time st
        (st.config.genesis_time + slot * SECONDS_PER_SLOT) true with
    | error e =>
      have hf := advance_time_facts st h (st.config.genesis_time + slot * SECONDS_PER_SLOT) true
      rw [hadv] at hf
      exact hf
    | ok st1 =>
      have hf := advance_time_facts st h (st.config.genesis_time + slot * SECONDS_PER_SLOT) true
      rw [hadv] at hf
      have hf2 := accept_new_votes_facts st1 hf.1
      exact ⟨hf2.1, storeMono_trans hf.2 hf2.2.1⟩

/-- The invariant holds at the shared anchor witness store. -/
theorem wStore_inv : StoreInv wStore := by
  constructor
  · exact ⟨{ root := [], slot := 0 }, rfl, le_refl _⟩
  · intro k hk
    have hb : wStore.blocks = [(([] : Root), wAnchorBlock)] := rfl
    have hs : wStore.states = [(([] : Root), wGenesis)] := rfl
    by_cases hke : k = ([] : Root)
    · subst hke
      rw [hb] at hk
      exact absurd hk (by decide)
    · rw [hs]
      unfold dictLookup
      rw [if_neg hke]
      rfl

/-- C5 amended witness: the invariant and both monotonicity components at a
concrete tick and a concrete block call on the anchor store. -/
theorem c5_amended_monotonic_witness :
    (StoreInv (Store.tick_interval wStore true) ∧
      storeMono wStore (Store.tick_interval wStore true)) ∧
    (StoreInv (resultStore (Store.process_block wH wStore wAnchorBlock [])) ∧
      storeMono wStore (resultStore (Store.process_block wH wStore wAnchorBlock []))) :=
  ⟨(c5_amended_monotonic wStore wStore_inv).1 true,
   (c5_amended_monotonic wStore wStore_inv).2.2.2.1 wH wAnchorBlock []⟩

/-- C5 counterexample: a sequence of completed Store operations (store
creation followed by five successful `process_block` calls) across which
`latest_finalized.slot` decreases from 1 to 0: the last block moves
`latest_justified` to a branch whose head state has a lower
`latest_finalized`, and `update_head` copies it without comparing. -/
theorem c5_counterexample :
    Store.get_forkchoice_store c5H c5S1 c5A1 = .ok c5St0 ∧
    Store.process_block c5H c5St0 c5C2 [] = .ok c5St1 ∧
    Store.process_block c5H c5St1 c5C3 [] = .ok c5St2 ∧
    Store.process_block c5H c5St2 c5D2 [] = .ok c5St3 ∧
    Store.process_block c5H c5St3 c5D3 [] = .ok c5St4 ∧
    Store.process_block c5H c5St4 c5C4 [] = .ok c5St5 ∧
    c5St4.latest_finalized.slot = 1 ∧
    c5St5.latest_finalized.slot = 0 := by
  refine ⟨by decide, by decide, by decide, by decide, by decide, by decide,
    by decide, by decide⟩

end LeanSpecPf
